import Mathlib

/-!
Shallow embedding of `src/main.py` (pokedex-sample): the numeric-text
classifier `TextUtil.is_digit`, the cell text resolver `get_cell_text`,
and the table-extraction operations of class `Pokedex`.

Python strings are modelled as Lean `String` (character classes restricted
to ASCII, which covers every string the claims mention); fallible Python
operations (`int(...)` raising `ValueError`, attribute access on a missing
element raising `AttributeError`, `d[k]` raising `KeyError`) return
`Option`, with `none` standing for the raised error.
-/

/-- Python `str.isdigit()` restricted to decimal digits: true iff the
string is non-empty and every character is a decimal digit. -/
def pyIsdigit (cs : List Char) : Bool :=
  !cs.isEmpty && cs.all Char.isDigit

namespace TextUtil

/-- `TextUtil.is_digit` from `src/main.py`, lines 12 to 28:
`s[:2] != '+-' and s[:2] != '-+' and s.lstrip('-').lstrip('+').isdigit()`.
Note that Python `lstrip` removes ALL leading occurrences of the given
character, and nothing is stripped from the right. -/
def is_digit (s : String) : Bool :=
  let cs := s.data
  cs.take 2 != ['+', '-'] &&
  cs.take 2 != ['-', '+'] &&
  pyIsdigit ((cs.dropWhile (fun c => c == '-')).dropWhile (fun c => c == '+'))

end TextUtil

/-- Python `str.strip()` (no argument: whitespace from both ends), on the
character list. -/
def wsStripChars (cs : List Char) : List Char :=
  ((cs.dropWhile Char.isWhitespace).reverse.dropWhile Char.isWhitespace).reverse

/-- Python `str.strip()`. -/
def pyStrip (s : String) : String :=
  ⟨wsStripChars s.data⟩

/-- Decimal value of a non-empty all-digit character list, `none` otherwise. -/
def digitsVal? (cs : List Char) : Option Nat :=
  if pyIsdigit cs then some (cs.foldl (fun a c => 10 * a + (c.toNat - 48)) 0)
  else none

/-- Python `int(...)` applied to a string: optional surrounding whitespace,
at most one sign character, then a non-empty run of decimal digits; `none`
models the `ValueError` raised on any other shape.  (Digit-grouping
underscores are not modelled: no string reaching `int` through
`get_cell_text` contains one, since `is_digit` rejects underscores.) -/
def pyInt? (s : String) : Option Int :=
  match wsStripChars s.data with
  | '-' :: rest => (digitsVal? rest).map (fun n => -(n : Int))
  | '+' :: rest => (digitsVal? rest).map (fun n => (n : Int))
  | rest => (digitsVal? rest).map (fun n => (n : Int))

/-- A resolved cell value: Python `Union[str, int]`. -/
inductive CellValue where
  | str : String → CellValue
  | int : Int → CellValue
deriving DecidableEq

/-- `get_cell_text` from `src/main.py`, lines 31 to 44, applied to the
cell's text (`cell.get_text()`):
`int(cell_text) if TextUtil.is_digit(cell_text) else cell_text.strip()`.
`none` models the `ValueError` that `int` raises when `is_digit` accepted
the text but it is not a valid integer literal. -/
def get_cell_text (s : String) : Option CellValue :=
  if TextUtil.is_digit s then (pyInt? s).map CellValue.int
  else some (CellValue.str (pyStrip s))

/-- The insertion-ordered dictionary built by `get_pokedex_data_dict`
(a Python `dict` from column label to the column's value sequence). -/
abbrev DataDict := List (String × List CellValue)

/-- Python `d[k]` read access; `none` models the `KeyError` raised on a
missing key. -/
def dictGet {α : Type} : List (String × α) → String → Option α
  | [], _ => none
  | (k, v) :: d, l => if l = k then some v else dictGet d l

/-- Python `d[k] = v`: updates in place when the key exists (its position
is kept), appends a new entry otherwise. -/
def dictSet {α : Type} : List (String × α) → String → α → List (String × α)
  | [], k, v => [(k, v)]
  | (k0, v0) :: d, k, v =>
    if k = k0 then (k, v) :: d else (k0, v0) :: dictSet d k v

/-- Python `dict.fromkeys(keys, v)` with a constant value: one entry per
distinct key, placed at the key's first occurrence, in iteration order. -/
def dictFromKeys {α : Type} (v : α) : List String → List (String × α)
  | [] => []
  | k :: ks => (k, v) :: (dictFromKeys v ks).filter (fun p => p.1 != k)

/-- First-occurrence deduplication of a key list (the key order of a
Python dict whose keys were inserted in list order). -/
def pyDedup : List String → List String
  | [] => []
  | k :: ks => k :: (pyDedup ks).filter (fun k0 => k0 != k)

/-- One iteration of the inner loop of `get_pokedex_data_dict`
(`src/main.py`, lines 120 to 123): resolve the cell's text and reassign
`data_dict[col_label] = data_dict[col_label] + [cell_text]`. -/
def processCell (d : DataDict) (cell colLabel : String) : Option DataDict :=
  match get_cell_text cell, dictGet d colLabel with
  | some v, some vs => some (dictSet d colLabel (vs ++ [v]))
  | _, _ => none

/-- The inner loop of `get_pokedex_data_dict` over
`zip(row_cells, column_labels)`. -/
def processRow (d : DataDict) : List (String × String) → Option DataDict
  | [] => some d
  | (cell, colLabel) :: rest =>
    match processCell d cell colLabel with
    | some d1 => processRow d1 rest
    | none => none

/-- The outer loop of `get_pokedex_data_dict` over `content_rows`. -/
def dataDictLoop (labels : List String) : DataDict → List (List String) → Option DataDict
  | d, [] => some d
  | d, row :: rows =>
    match processRow d (row.zip labels) with
    | some d1 => dataDictLoop labels d1 rows
    | none => none

/-- `Pokedex.get_pokedex_data_dict` from `src/main.py`, lines 103 to 124.
A content row is modelled by the list of its cells' texts (in the source,
`data_row.find_all('td')` followed by `cell.get_text()` per cell). -/
def get_pokedex_data_dict (labels : List String)
    (rows : List (List String)) : Option DataDict :=
  dataDictLoop labels (dictFromKeys ([] : List CellValue) labels) rows

/-- Newline intercalation on character lists: the `separator='\n'` join
performed by `get_text`. -/
def interNL : List (List Char) → List Char
  | [] => []
  | [cs] => cs
  | cs :: css => cs ++ '\n' :: interNL css

/-- Python `str.split('\n')` on the character list: the maximal (possibly
empty) segments between newline characters; the empty string yields one
empty segment, as in Python where an empty string splits to a list holding
one empty string. -/
def splitNLChars : List Char → List (List Char)
  | [] => [[]]
  | c :: cs =>
    if c = '\n' then [] :: splitNLChars cs
    else
      match splitNLChars cs with
      | [] => [[c]]
      | t :: ts => (c :: t) :: ts

/-- Python `str.split('\n')`. -/
def pySplitNL (s : String) : List String :=
  (splitNLChars s.data).map (fun cs => ⟨cs⟩)

/-- The located table element.  `find('thead')` is modelled by the optional
list of the header section's text segments in document order, and
`find('tbody')` by the optional list of content rows, each the list of its
cells' texts.  `none` models an absent section, on which the subsequent
attribute access raises `AttributeError`. -/
structure PokedexTable where
  thead : Option (List String)
  tbody : Option (List (List String))

/-- The stripped, non-empty text segments of the header section, in
document order: exactly the strings that
`get_text(separator='\n', strip=True)` joins. -/
def headerSegments (ts : List String) : List String :=
  (ts.map pyStrip).filter (fun s => s != "")

/-- `thead.get_text(separator='\n', strip=True)`: each text segment is
stripped, whitespace-only segments are skipped, and the rest are joined
with a newline separator. -/
def theadGetText (ts : List String) : String :=
  ⟨interNL ((headerSegments ts).map String.data)⟩

/-- `Pokedex.get_pokedex_column_labels` from `src/main.py`, lines 79 to 87:
`table.find('thead').get_text(separator='\n', strip=True).split('\n')`.
`none` models the `AttributeError` raised when no header section exists. -/
def get_pokedex_column_labels (t : PokedexTable) : Option (List String) :=
  t.thead.map (fun ts => pySplitNL (theadGetText ts))

/-- `Pokedex.get_pokedex_content_rows` from `src/main.py`, lines 89 to 101:
`table.find('tbody').find_all('tr')`.  `none` models the `AttributeError`
raised when no body section exists. -/
def get_pokedex_content_rows (t : PokedexTable) : Option (List (List String)) :=
  t.tbody

/-- All cell texts paired with label `l` across all rows, in document
order: per row, `zip(row_cells, column_labels)` keeps the positions up to
the shorter of the two sequences, and the filter keeps the positions whose
paired label is `l`. -/
def colCellTexts (labels : List String) (l : String)
    (rows : List (List String)) : List String :=
  (rows.map (fun r => ((r.zip labels).filter (fun p => p.2 == l)).map Prod.fst)).flatten

/-- Resolve a list of cell texts left to right, failing as soon as one
resolution fails. -/
def resolveCells : List String → Option (List CellValue)
  | [] => some []
  | c :: cs =>
    match get_cell_text c, resolveCells cs with
    | some v, some vs => some (v :: vs)
    | _, _ => none

/-! ## Dictionary lemmas -/

theorem dictGet_dictSet_self {α : Type} (d : List (String × α)) (k : String) (v : α) :
    dictGet (dictSet d k v) k = some v := by
  induction d with
  | nil => simp [dictSet, dictGet]
  | cons p d ih =>
    obtain ⟨k0, v0⟩ := p
    by_cases h : k = k0 <;> simp [dictSet, dictGet, h, ih]

theorem dictGet_dictSet_other {α : Type} (d : List (String × α)) (k l : String) (v : α)
    (h : l ≠ k) : dictGet (dictSet d k v) l = dictGet d l := by
  induction d with
  | nil => simp [dictSet, dictGet, h]
  | cons p d ih =>
    obtain ⟨k0, v0⟩ := p
    by_cases hk : k = k0
    · subst hk
      simp [dictSet, dictGet, h]
    · by_cases hl : l = k0 <;> simp [dictSet, dictGet, hk, hl, ih]

theorem mem_keys_of_dictGet {α : Type} {d : List (String × α)} {k : String} {v : α}
    (h : dictGet d k = some v) : k ∈ d.map Prod.fst := by
  induction d with
  | nil => simp [dictGet] at h
  | cons p d ih =>
    obtain ⟨k0, v0⟩ := p
    by_cases hk : k = k0
    · simp [hk]
    · simp only [dictGet, hk, if_false] at h
      exact List.mem_cons_of_mem _ (ih h)

theorem keys_dictSet_of_mem {α : Type} {d : List (String × α)} {k : String} (v : α)
    (h : k ∈ d.map Prod.fst) : (dictSet d k v).map Prod.fst = d.map Prod.fst := by
  induction d with
  | nil => simp at h
  | cons p d ih =>
    obtain ⟨k0, v0⟩ := p
    by_cases hk : k = k0
    · simp [dictSet, hk]
    · simp only [List.map_cons, List.mem_cons, hk, false_or] at h
      simp [dictSet, hk, ih h]

theorem dictGet_filter_ne {α : Type} (d : List (String × α)) (k l : String) (h : l ≠ k) :
    dictGet (d.filter (fun p => p.1 != k)) l = dictGet d l := by
  induction d with
  | nil => simp
  | cons p d ih =>
    obtain ⟨k0, v0⟩ := p
    by_cases hk : k0 = k
    · subst hk
      have : l ≠ k0 := h
      simp [List.filter_cons, dictGet, this, ih]
    · by_cases hl : l = k0 <;> simp [List.filter_cons, dictGet, hk, hl, ih]

theorem dictGet_dictFromKeys {α : Type} (v : α) (ks : List String) (l : String) :
    dictGet (dictFromKeys v ks) l = if l ∈ ks then some v else none := by
  induction ks with
  | nil => simp [dictFromKeys, dictGet]
  | cons k ks ih =>
    by_cases hk : l = k
    · subst hk
      simp [dictFromKeys, dictGet]
    · simp [dictFromKeys, dictGet, hk, dictGet_filter_ne _ _ _ hk, ih]

theorem map_fst_filter_ne {α : Type} (d : List (String × α)) (k : String) :
    (d.filter (fun p => p.1 != k)).map Prod.fst =
      (d.map Prod.fst).filter (fun x => x != k) := by
  induction d with
  | nil => simp
  | cons p d ih =>
    obtain ⟨k0, v0⟩ := p
    by_cases hk : k0 = k <;> simp [List.filter_cons, hk, ih]

theorem keys_dictFromKeys {α : Type} (v : α) (ks : List String) :
    (dictFromKeys v ks).map Prod.fst = pyDedup ks := by
  induction ks with
  | nil => simp [dictFromKeys, pyDedup]
  | cons k ks ih =>
    simp [dictFromKeys, pyDedup, map_fst_filter_ne, ih]

/-! ## Characterization of the table-building loops -/

theorem processCell_eq_some {d d1 : DataDict} {c l : String}
    (h : processCell d c l = some d1) :
    ∃ v vs, get_cell_text c = some v ∧ dictGet d l = some vs ∧
      d1 = dictSet d l (vs ++ [v]) := by
  cases hc : get_cell_text c with
  | none => simp [processCell, hc] at h
  | some v =>
    cases hg : dictGet d l with
    | none => simp [processCell, hc, hg] at h
    | some vs =>
      simp only [processCell, hc, hg, Option.some.injEq] at h
      exact ⟨v, vs, rfl, rfl, h.symm⟩

theorem processRow_dictGet {pairs : List (String × String)} {d d1 : DataDict}
    (h : processRow d pairs = some d1) (l : String) :
    dictGet d1 l =
      (dictGet d l).bind (fun vs =>
        (resolveCells ((pairs.filter (fun p => p.2 == l)).map Prod.fst)).map
          (fun ws => vs ++ ws)) := by
  induction pairs generalizing d with
  | nil =>
    simp only [processRow, Option.some.injEq] at h
    subst h
    cases hg : dictGet d l <;> simp [resolveCells]
  | cons p rest ih =>
    obtain ⟨c, l0⟩ := p
    cases hpc : processCell d c l0 with
    | none => simp [processRow, hpc] at h
    | some d2 =>
      simp only [processRow, hpc] at h
      obtain ⟨v, vs0, hc, hg0, hd2⟩ := processCell_eq_some hpc
      subst hd2
      have hrec := ih h
      by_cases hl : l = l0
      · subst hl
        rw [hrec, dictGet_dictSet_self, hg0]
        simp only [List.filter_cons, beq_self_eq_true, if_pos, List.map_cons,
          resolveCells, hc]
        cases hr : resolveCells ((rest.filter (fun p => p.2 == l)).map Prod.fst) <;>
          simp [List.append_assoc]
      · have hne : (l0 == l) = false := by
          simp [beq_eq_false_iff_ne]
          exact fun hx => hl hx.symm
        rw [hrec, dictGet_dictSet_other _ _ _ _ hl]
        simp [List.filter_cons, hne]

theorem resolveCells_append (as bs : List String) :
    resolveCells (as ++ bs) =
      (resolveCells as).bind (fun xs =>
        (resolveCells bs).map (fun ys => xs ++ ys)) := by
  induction as with
  | nil => cases hb : resolveCells bs <;> simp [resolveCells, hb]
  | cons c cs ih =>
    rw [List.cons_append]
    cases hc : get_cell_text c <;> cases ha : resolveCells cs <;>
      cases hb : resolveCells bs <;>
      simp [resolveCells, hc, ih, ha, hb]

theorem dataDictLoop_dictGet {labels : List String} {rows : List (List String)}
    {d d1 : DataDict} (h : dataDictLoop labels d rows = some d1) (l : String) :
    dictGet d1 l =
      (dictGet d l).bind (fun vs =>
        (resolveCells (colCellTexts labels l rows)).map (fun ws => vs ++ ws)) := by
  induction rows generalizing d with
  | nil =>
    simp only [dataDictLoop, Option.some.injEq] at h
    subst h
    cases hg : dictGet d l <;> simp [colCellTexts, resolveCells]
  | cons r rows ih =>
    cases hpr : processRow d (r.zip labels) with
    | none => simp [dataDictLoop, hpr] at h
    | some d2 =>
      simp only [dataDictLoop, hpr] at h
      have h2 := processRow_dictGet hpr l
      have h1 := ih h
      have hcol : colCellTexts labels l (r :: rows) =
          ((r.zip labels).filter (fun p => p.2 == l)).map Prod.fst ++
            colCellTexts labels l rows := by
        simp [colCellTexts]
      rw [h1, h2, hcol, resolveCells_append]
      cases hg : dictGet d l <;>
        cases ha : resolveCells (((r.zip labels).filter (fun p => p.2 == l)).map Prod.fst) <;>
        cases hb : resolveCells (colCellTexts labels l rows) <;>
        simp [List.append_assoc]

/-- Shared characterization of `get_pokedex_data_dict`: on success, the
value stored at a label is the left-to-right resolution of every cell text
positionally paired with that label, and labels absent from the input have
no entry. -/
theorem data_dict_char {labels : List String} {rows : List (List String)} {d : DataDict}
    (h : get_pokedex_data_dict labels rows = some d) (l : String) :
    dictGet d l =
      if l ∈ labels then resolveCells (colCellTexts labels l rows) else none := by
  unfold get_pokedex_data_dict at h
  have hmain := dataDictLoop_dictGet h l
  rw [dictGet_dictFromKeys] at hmain
  by_cases hl : l ∈ labels
  · rw [if_pos hl] at hmain
    rw [if_pos hl, hmain]
    cases hr : resolveCells (colCellTexts labels l rows) <;> simp
  · rw [if_neg hl] at hmain
    rw [if_neg hl, hmain]
    rfl

theorem keys_processRow {pairs : List (String × String)} {d d1 : DataDict}
    (h : processRow d pairs = some d1) : d1.map Prod.fst = d.map Prod.fst := by
  induction pairs generalizing d with
  | nil =>
    simp only [processRow, Option.some.injEq] at h
    subst h
    rfl
  | cons p rest ih =>
    obtain ⟨c, l0⟩ := p
    cases hpc : processCell d c l0 with
    | none => simp [processRow, hpc] at h
    | some d2 =>
      simp only [processRow, hpc] at h
      obtain ⟨v, vs0, hc, hg0, hd2⟩ := processCell_eq_some hpc
      subst hd2
      rw [ih h, keys_dictSet_of_mem _ (mem_keys_of_dictGet hg0)]

theorem keys_dataDictLoop {labels : List String} {rows : List (List String)}
    {d d1 : DataDict} (h : dataDictLoop labels d rows = some d1) :
    d1.map Prod.fst = d.map Prod.fst := by
  induction rows generalizing d with
  | nil =>
    simp only [dataDictLoop, Option.some.injEq] at h
    subst h
    rfl
  | cons r rows ih =>
    cases hpr : processRow d (r.zip labels) with
    | none => simp [dataDictLoop, hpr] at h
    | some d2 =>
      simp only [dataDictLoop, hpr] at h
      rw [ih h, keys_processRow hpr]

/-! ## Length lemmas -/

theorem resolveCells_length {cs : List String} {vs : List CellValue}
    (h : resolveCells cs = some vs) : vs.length = cs.length := by
  induction cs generalizing vs with
  | nil =>
    simp only [resolveCells, Option.some.injEq] at h
    subst h
    rfl
  | cons c cs ih =>
    cases hc : get_cell_text c with
    | none => simp [resolveCells, hc] at h
    | some v =>
      cases hr : resolveCells cs with
      | none => simp [resolveCells, hc, hr] at h
      | some ws =>
        simp only [resolveCells, hc, hr, Option.some.injEq] at h
        subst h
        simp [ih hr]

theorem length_colCells_row {labels : List String} {l : String} (hnd : labels.Nodup)
    (hl : l ∈ labels) (r : List String) (hlen : labels.length ≤ r.length) :
    (((r.zip labels).filter (fun p => p.2 == l)).map Prod.fst).length = 1 := by
  rw [List.length_map, ← List.countP_eq_length_filter]
  have h1 : (fun p : String × String => p.2 == l) = (fun x => x == l) ∘ Prod.snd := rfl
  rw [h1, ← List.countP_map, List.map_snd_zip r labels hlen, ← List.count_eq_countP]
  exact List.count_eq_one_of_mem hnd hl

theorem length_flatten_ones {α : Type} {rows : List α} {f : α → List String}
    (h : ∀ r ∈ rows, (f r).length = 1) :
    ((rows.map f).flatten).length = rows.length := by
  induction rows with
  | nil => rfl
  | cons r rows ih =>
    simp only [List.map_cons, List.flatten_cons, List.length_append, List.length_cons,
      h r (List.mem_cons_self r rows), ih (fun x hx => h x (List.mem_cons_of_mem _ hx))]
    omega

/-! ## Split and join lemmas for the header text -/

theorem splitNLChars_no_nl {cs : List Char} (h : '\n' ∉ cs) : splitNLChars cs = [cs] := by
  induction cs with
  | nil => rfl
  | cons c cs ih =>
    have hc : ¬(c = '\n') := by
      intro he
      exact h (he ▸ List.mem_cons_self c cs)
    have hcs : '\n' ∉ cs := fun hx => h (List.mem_cons_of_mem _ hx)
    simp [splitNLChars, hc, ih hcs]

theorem splitNLChars_append_nl {as : List Char} (bs : List Char) (h : '\n' ∉ as) :
    splitNLChars (as ++ '\n' :: bs) = as :: splitNLChars bs := by
  induction as with
  | nil => simp [splitNLChars]
  | cons a as ih =>
    have ha : ¬(a = '\n') := by
      intro he
      exact h (he ▸ List.mem_cons_self a as)
    have has : '\n' ∉ as := fun hx => h (List.mem_cons_of_mem _ hx)
    rw [List.cons_append]
    simp [splitNLChars, ha, ih has]

theorem splitNLChars_interNL {xss : List (List Char)} (h1 : xss ≠ [])
    (h2 : ∀ xs ∈ xss, '\n' ∉ xs) : splitNLChars (interNL xss) = xss := by
  induction xss with
  | nil => exact absurd rfl h1
  | cons xs xss ih =>
    cases xss with
    | nil => exact splitNLChars_no_nl (h2 xs (List.mem_cons_self _ _))
    | cons ys yss =>
      have hxs : '\n' ∉ xs := h2 xs (List.mem_cons_self _ _)
      have hrest : ∀ zs ∈ ys :: yss, '\n' ∉ zs :=
        fun zs hz => h2 zs (List.mem_cons_of_mem _ hz)
      have hstep : interNL (xs :: ys :: yss) = xs ++ '\n' :: interNL (ys :: yss) := rfl
      rw [hstep, splitNLChars_append_nl _ hxs, ih (by simp) hrest]

theorem pySplitNL_theadGetText {ts : List String} (h1 : headerSegments ts ≠ [])
    (h2 : ∀ s ∈ headerSegments ts, '\n' ∉ s.data) :
    pySplitNL (theadGetText ts) = headerSegments ts := by
  unfold pySplitNL theadGetText
  have hne : (headerSegments ts).map String.data ≠ [] := by
    simpa using h1
  have hnl : ∀ xs ∈ (headerSegments ts).map String.data, '\n' ∉ xs := by
    intro xs hx
    obtain ⟨s, hs, hxs⟩ := List.mem_map.mp hx
    exact hxs ▸ h2 s hs
  rw [show (⟨interNL ((headerSegments ts).map String.data)⟩ : String).data =
    interNL ((headerSegments ts).map String.data) from rfl]
  rw [splitNLChars_interNL hne hnl, List.map_map]
  have hid : ((fun cs => (⟨cs⟩ : String)) ∘ String.data) = id := funext fun s => rfl
  rw [hid, List.map_id]

/-! ## Claim theorems -/

/-- C1: evaluation of the numeric-text classifier on the spec's examples.
Seven of the eight listed examples behave as the claim states, but
`is_digit "--7"` returns true where the claim (and the function's own
docstring, "True if the string is a number") requires false:
Python `lstrip('-')` removes every leading minus, not at most one, so
"--7" strips to "7", which passes the digit test. -/
theorem C1_is_digit_examples :
    TextUtil.is_digit "42" = true ∧
    TextUtil.is_digit "-7" = true ∧
    TextUtil.is_digit "+7" = true ∧
    TextUtil.is_digit "+-7" = false ∧
    TextUtil.is_digit "-+7" = false ∧
    TextUtil.is_digit "" = false ∧
    TextUtil.is_digit "12-3" = false ∧
    TextUtil.is_digit "--7" = true := by
  decide

/-- C2: the cell resolver at the failing input "--7": the classifier
accepts it, yet no value is returned, because Python's `int("--7")` raises
`ValueError` (modelled by `none`) — against the claim that a value is
always returned (an integer whenever the classifier accepts).  On
classifier-rejected text the stripped text is returned as claimed, and on
well-formed numeric text the integer is returned as claimed. -/
theorem C2_get_cell_text_failure :
    TextUtil.is_digit "--7" = true ∧
    get_cell_text "--7" = none ∧
    get_cell_text "42" = some (CellValue.int 42) ∧
    get_cell_text "-7" = some (CellValue.int (-7)) ∧
    get_cell_text " abc " = some (CellValue.str "abc") := by
  decide

/-- C3 counterexample: two tables whose rows all have the same cell count,
on which some column's sequence length differs from the number of content
rows.  First, with labels ["A", "B"] and the single one-cell row ["x"]
(every row has cell count 1), column "B" ends with length 0, not 1.
Second, with the duplicate labels ["A", "A"] and the single two-cell row
["x", "y"], the collapsed column "A" ends with length 2, not 1. -/
theorem C3_counterexample :
    (get_pokedex_data_dict ["A", "B"] [["x"]] =
      some [("A", [CellValue.str "x"]), ("B", [])] ∧
      ([] : List CellValue).length ≠ ([["x"]] : List (List String)).length) ∧
    (get_pokedex_data_dict ["A", "A"] [["x", "y"]] =
      some [("A", [CellValue.str "x", CellValue.str "y"])] ∧
      ([CellValue.str "x", CellValue.str "y"]).length ≠
        ([["x", "y"]] : List (List String)).length) := by
  decide

/-- C3 (amended): when the labels are pairwise distinct and every content
row has at least as many cells as there are labels (in particular, any
correctly-formed table whose common cell count equals the label count),
every column's value sequence in the table built by
`get_pokedex_data_dict` has length equal to the number of content rows. -/
theorem C3_amended (labels : List String) (rows : List (List String)) (d : DataDict)
    (hnd : labels.Nodup) (hlen : ∀ r ∈ rows, labels.length ≤ r.length)
    (h : get_pokedex_data_dict labels rows = some d)
    (l : String) (vs : List CellValue) (hget : dictGet d l = some vs) :
    vs.length = rows.length := by
  have hchar := data_dict_char h l
  by_cases hl : l ∈ labels
  · rw [if_pos hl, hget] at hchar
    have hres : resolveCells (colCellTexts labels l rows) = some vs := hchar.symm
    rw [resolveCells_length hres]
    exact length_flatten_ones (fun r hr => length_colCells_row hnd hl r (hlen r hr))
  · rw [if_neg hl, hget] at hchar
    exact absurd hchar (by simp)

/-- Witness for C3 (amended) at labels ["A", "B"] and the single row
["x", "y"]: column "A" holds one value and one row was processed. -/
theorem C3_amended_witness :
    ([CellValue.str "x"] : List CellValue).length =
      ([["x", "y"]] : List (List String)).length :=
  C3_amended ["A", "B"] [["x", "y"]]
    [("A", [CellValue.str "x"]), ("B", [CellValue.str "y"])]
    (by decide) (by decide) (by decide) "A" [CellValue.str "x"] (by decide)

/-- C4: on the concrete table with labels ["Name", "Type"] and the two
content rows ["Bulbasaur", "Grass"] and ["1", "Fire"],
`get_pokedex_data_dict` returns exactly the claimed mapping, with the
second row's first cell coerced to the integer 1 while its siblings stay
strings. -/
theorem C4_concrete_table :
    get_pokedex_data_dict ["Name", "Type"] [["Bulbasaur", "Grass"], ["1", "Fire"]] =
      some [("Name", [CellValue.str "Bulbasaur", CellValue.int 1]),
            ("Type", [CellValue.str "Grass", CellValue.str "Fire"])] := by
  decide

/-- C5: positional pairing.  Whenever `get_pokedex_data_dict` completes,
the sequence stored at a label is exactly the left-to-right resolution of
the cell texts paired with that label: per row, `zip` pairs cells with
labels up to the shorter of the two sequences (a short row gives trailing
labels nothing, extra cells are dropped), and the paired cells' resolved
values are appended in row order. -/
theorem C5_positional_pairing (labels : List String) (rows : List (List String))
    (d : DataDict) (h : get_pokedex_data_dict labels rows = some d) (l : String) :
    dictGet d l =
      if l ∈ labels then resolveCells (colCellTexts labels l rows) else none :=
  data_dict_char h l

/-- Witness for C5 at labels ["A"] and the single row ["x", "y"]: the
extra cell "y" is ignored and column "A" holds the resolved "x". -/
theorem C5_positional_pairing_witness :
    dictGet ([("A", [CellValue.str "x"])] : DataDict) "A" =
      if "A" ∈ ["A"] then resolveCells (colCellTexts ["A"] "A" [["x", "y"]]) else none :=
  C5_positional_pairing ["A"] [["x", "y"]] [("A", [CellValue.str "x"])] (by decide) "A"

/-- C6: when the located table element has no header section,
`get_pokedex_column_labels` propagates an error (returns no value), and
when it has no body section, `get_pokedex_content_rows` does. -/
theorem C6_missing_sections (t : PokedexTable) :
    (t.thead = none → get_pokedex_column_labels t = none) ∧
    (t.tbody = none → get_pokedex_content_rows t = none) := by
  constructor <;> intro h <;>
    simp [get_pokedex_column_labels, get_pokedex_content_rows, h]

/-- Witness for C6 at the table with both sections absent. -/
theorem C6_missing_sections_witness :
    get_pokedex_column_labels ⟨none, none⟩ = none ∧
    get_pokedex_content_rows ⟨none, none⟩ = none :=
  ⟨(C6_missing_sections ⟨none, none⟩).1 rfl, (C6_missing_sections ⟨none, none⟩).2 rfl⟩

/-- C7 counterexample: a header section that is present but whose text
content is empty after stripping (here, one whitespace-only text segment)
makes `get_pokedex_column_labels` return the one-element sequence holding
the empty string — a returned label that is empty, against the claim that
every returned label is non-empty.  (Python: `''.split('\n')` is `['']`.) -/
theorem C7_counterexample :
    get_pokedex_column_labels ⟨some ["   "], none⟩ = some [""] ∧
    ("" : String) ∈ [""] ∧ ("" : String).length = 0 := by
  decide

/-- C7 (amended): whenever a header section is present, at least one of
its text segments is non-empty after stripping, and no stripped segment
contains an interior line break, `get_pokedex_column_labels` returns
exactly the ordered sequence of stripped non-empty segments in document
order, and every label in the returned sequence is non-empty. -/
theorem C7_amended (ts : List String) (b : Option (List (List String)))
    (h1 : headerSegments ts ≠ [])
    (h2 : ∀ s ∈ headerSegments ts, '\n' ∉ s.data) :
    get_pokedex_column_labels ⟨some ts, b⟩ = some (headerSegments ts) ∧
    ∀ lab ∈ headerSegments ts, lab ≠ "" := by
  constructor
  · show some (pySplitNL (theadGetText ts)) = some (headerSegments ts)
    rw [pySplitNL_theadGetText h1 h2]
  · intro lab hlab
    have hmem := List.of_mem_filter hlab
    simpa using hmem

/-- Witness for C7 (amended) on a header with segments
["  Name ", "", "Type"]: the labels are ["Name", "Type"], all non-empty. -/
theorem C7_amended_witness :
    get_pokedex_column_labels ⟨some ["  Name ", "", "Type"], none⟩ =
      some (headerSegments ["  Name ", "", "Type"]) ∧
    ∀ lab ∈ headerSegments ["  Name ", "", "Type"], lab ≠ "" :=
  C7_amended ["  Name ", "", "Type"] none (by decide) (by decide)

/-- C8: cell resolution is deterministic: two resolutions of the same raw
cell text yield the same outcome (the same typed value when one exists). -/
theorem C8_resolution_deterministic (t : String) (v1 v2 : Option CellValue)
    (h1 : get_cell_text t = v1) (h2 : get_cell_text t = v2) : v1 = v2 :=
  h1.symm.trans h2

/-- Witness for C8 at the raw text "42". -/
theorem C8_resolution_deterministic_witness :
    (some (CellValue.int 42) : Option CellValue) = some (CellValue.int 42) :=
  C8_resolution_deterministic "42" (some (CellValue.int 42)) (some (CellValue.int 42))
    (by decide) (by decide)

/-- C9: whenever `get_pokedex_data_dict` completes, the key list of the
returned dictionary is exactly the distinct labels in first-occurrence
order, regardless of the rows' contents; and each label's single entry
receives the resolved cells of every position paired with that label
(duplicate labels are collapsed into one key). -/
theorem C9_key_set (labels : List String) (rows : List (List String)) (d : DataDict)
    (h : get_pokedex_data_dict labels rows = some d) :
    d.map Prod.fst = pyDedup labels ∧
    ∀ l, l ∈ labels →
      dictGet d l = resolveCells (colCellTexts labels l rows) := by
  constructor
  · have h1 : dataDictLoop labels (dictFromKeys ([] : List CellValue) labels) rows =
        some d := h
    rw [keys_dataDictLoop h1, keys_dictFromKeys]
  · intro l hl
    have hchar := data_dict_char h l
    rwa [if_pos hl] at hchar

/-- Witness for C9 at the duplicate labels ["A", "B", "A"] and the single
row ["x", "y", "z"]: the keys are ["A", "B"] and the collapsed column "A"
receives both of its positions' cells. -/
theorem C9_key_set_witness :
    ([("A", [CellValue.str "x", CellValue.str "z"]),
      ("B", [CellValue.str "y"])] : DataDict).map Prod.fst =
        pyDedup ["A", "B", "A"] ∧
    ∀ l, l ∈ ["A", "B", "A"] →
      dictGet ([("A", [CellValue.str "x", CellValue.str "z"]),
        ("B", [CellValue.str "y"])] : DataDict) l =
          resolveCells (colCellTexts ["A", "B", "A"] l [["x", "y", "z"]]) :=
  C9_key_set ["A", "B", "A"] [["x", "y", "z"]]
    [("A", [CellValue.str "x", CellValue.str "z"]), ("B", [CellValue.str "y"])]
    (by decide)

/-- C10: `TextUtil.is_digit` is total: every string, including the empty
string and one-character strings of bare signs, yields a boolean (the
two-character slice and the sign stripping are safe on short strings). -/
theorem C10_is_digit_total :
    (∀ s : String, TextUtil.is_digit s = true ∨ TextUtil.is_digit s = false) ∧
    TextUtil.is_digit "" = false ∧
    TextUtil.is_digit "-" = false ∧
    TextUtil.is_digit "+" = false ∧
    TextUtil.is_digit "5" = true := by
  refine ⟨fun s => ?_, by decide, by decide, by decide, by decide⟩
  cases h : TextUtil.is_digit s
  · exact Or.inr rfl
  · exact Or.inl rfl
